import Mathlib

/-!
Verification of the capture-composite-transmit pipeline of the `nora`
screen-freezing tool (`src/main.rs`, `src/ffi.rs`).

The development shallowly embeds the algorithmic parts of `run`
(`src/main.rs`):

* the chunked transmission of the captured image under the transport's
  maximum request length (`main.rs` lines 124-182), modelled by `transmit`
  and `chunkLoop`;
* the cursor compositing loops (`main.rs` lines 89-113), modelled by
  `composite` and `blendAt`;
* the child-process tail of `run` and the exit-code logic of `main`
  (`main.rs` lines 32-41 and 268-274), modelled by `runChild` and
  `mainExitCode`.

Machine integers are modelled as `Nat`/`Int`; the places where the Rust
code performs wrapping arithmetic that can actually wrap are modelled
explicitly: the cursor top-left computation
`cursor.x() as usize - cursor.xhot() as usize` modulo `2 ^ 64` by
`wrapSub`, the rows-per-chunk computation
`max_request_length as usize - req_size - 4` by `usizeSub`, and the `i16`
destination-row accumulator `dst_y += rows as i16` by `wrapI16` (release
semantics throughout).  The per-channel
`f32` alpha blend is kept abstract as a function parameter `blend` of
`composite`; `blendByte` is the exact-arithmetic counterpart of the
blend expression, used to instantiate concrete evaluations.
-/

namespace Nora

/-- Protocol overhead constant from the source: `let req_size = 18;`
(`main.rs` line 127). -/
def REQ_SIZE : Nat := 18

/-- Wrap-around size of `usize` on the target (64-bit). -/
def U64 : Nat := 2 ^ 64

/-- Wrapping `usize` subtraction (release semantics): on representable
inputs (`a, b < 2 ^ 64`, as every `usize` value is) this is
`(a - b) mod 2 ^ 64`, the two's-complement result of the overflowing
subtraction. -/
def usizeSub (a b : Nat) : Nat :=
  if b ≤ a then a - b else U64 - (b - a)

/-- Wrapping reduction of an integer to the `i16` range, two's
complement: the value of `n as i16` and of an overflowing `i16` addition
(release semantics). -/
def wrapI16 (n : Int) : Int :=
  (n + 32768) % 65536 - 32768

/-- One `put_image` submission of the splitting loop: `rowCount` rows are
sent to destination row `dstY` (an `i16` value: `dst_y` in the source is
`i16` and is accumulated with a wrapping `as i16` cast, `main.rs` line
175), taken from the byte offset `first` of the image buffer
(`image_data[start..start + length]`, `main.rs` line 171). -/
structure Chunk where
  rowCount : Nat
  dstY : Int
  first : Nat
  deriving DecidableEq

/-- Outcome of the transmission step: either a list of emitted chunks, or
the panic at `main.rs` line 147, carrying the offending rows count. -/
inductive TransmitResult where
  | sent (chunks : List Chunk)
  | panicked (rows : Nat)
  deriving DecidableEq

/-- The chunks carried by a `TransmitResult` (none when the code panics). -/
def TransmitResult.chunks : TransmitResult → List Chunk
  | .sent cs => cs
  | .panicked _ => []

/-- Rows per full chunk as computed by the source:
`(max_request_length as usize - req_size - 4) / stride` (`main.rs` line
145).  The two `usize` subtractions wrap in release builds, so for
`maxReq < 22` the computed rows value is huge rather than zero. -/
def rowsPerChunk (maxReq stride : Nat) : Nat :=
  usizeSub (usizeSub maxReq REQ_SIZE) 4 / stride

/-- The splitting loop of `main.rs` lines 153-181, written with explicit
fuel (the Rust loop is an unbounded `loop`; every iteration consumes at
least one row when `rows ≥ 1`, so fuel `remaining` suffices, which
`chunkLoop_fuel_irrelevant` makes precise).  Mirrors the body: clamp
`rows` to the remaining height, emit the chunk, advance `dst_y` (an
`i16`, updated with `dst_y += rows as i16`, hence through `wrapI16`) and
the byte cursor, stop when the remaining height reaches 0. -/
def chunkLoop (stride : Nat) : Nat → Nat → Nat → Int → Nat → List Chunk
  | 0, _, _, _, _ => []
  | fuel + 1, rows, remaining, dsty, first =>
    let take := if rows > remaining then remaining else rows
    let c : Chunk := ⟨take, dsty, first⟩
    if remaining - take = 0 then [c]
    else c :: chunkLoop stride fuel rows (remaining - take)
      (wrapI16 (dsty + wrapI16 take)) (first + take * stride)

/-- The transmission step of `main.rs` lines 124-182.  `stride` is derived
exactly as in the source (`image_data.len() / height as usize`); if the
whole buffer is below the maximum request length a single whole-image
`put_image` happens, otherwise the buffer is split row-wise, panicking
when not even one row fits. -/
def transmit (maxReq height bufLen : Nat) : TransmitResult :=
  let stride := bufLen / height
  if bufLen < maxReq then .sent [⟨height, 0, 0⟩]
  else
    let rows := rowsPerChunk maxReq stride
    if rows = 0 then .panicked rows
    else .sent (chunkLoop stride height rows height 0 0)

/-- The byte range a chunk submits: `image_data[start..start + rows * stride]`
(`main.rs` lines 158 and 171). -/
def chunkBytes (buffer : List Nat) (stride : Nat) (c : Chunk) : List Nat :=
  (buffer.drop c.first).take (c.rowCount * stride)

/-- `a as usize - b as usize` for `a : i16` and `b : u16`: both casts embed
into `usize` (the `i16` sign-extends, i.e. is taken modulo `2 ^ 64`) and the
subtraction wraps modulo `2 ^ 64` (`main.rs` lines 91-92, release
semantics). -/
def wrapSub (a : Int) (b : Nat) : Nat :=
  ((a - (b : Int)) % (U64 : Int)).toNat

/-- A cursor texel as exposed by `ffi::CPixel` (`ffi.rs` lines 282-289):
channel bytes `r`, `g`, `b`, `a`. -/
structure CPixel where
  r : Nat
  g : Nat
  b : Nat
  a : Nat
  deriving DecidableEq

/-- The data of `ffi::CursorImage` used by `run` (`ffi.rs` lines 240-272):
reported position (`i16`), hotspot (`u16`), sprite geometry (`u16`) and
the texel array of length `width * height`. -/
structure CursorImage where
  x : Int
  y : Int
  xhot : Nat
  yhot : Nat
  width : Nat
  height : Nat
  pixels : List CPixel
  deriving DecidableEq

/-- Exact-arithmetic model of the per-channel blend of `main.rs` lines
102-110: `frame * (1 - a / 255) + sprite * (a / 255)` truncated toward
zero equals `(frame * (255 - a) + sprite * a) / 255` over the integers.
The source computes this in `f32`; this definition is its idealised
counterpart, used only to instantiate the position/clipping theorems,
which hold for every blend function. -/
def blendByte (f s a : Nat) : Nat :=
  (f * (255 - a) + s * a) / 255

/-- The body of the nested compositing loops (`main.rs` lines 96-110) at
destination pixel `(x, y)`, with `ox`/`oy` the computed sprite top-left
(`cursorx`/`cursory`): read the three destination channel bytes, blend
them with the sprite texel at `cstart`, and write them back.  The fourth
(alpha/padding) byte is not touched. -/
def blendAt (w : Nat) (blend : Nat → Nat → Nat → Nat) (c : CursorImage)
    (ox oy : Nat) (buf : List Nat) (x y : Nat) : List Nat :=
  let cx := x - ox
  let cy := y - oy
  let istart := (y * w + x) * 4
  let cstart := cy * c.width + cx
  let p := c.pixels.getD cstart ⟨0, 0, 0, 0⟩
  let nb := blend (buf.getD istart 0) p.b p.a
  let ng := blend (buf.getD (istart + 1) 0) p.g p.a
  let nr := blend (buf.getD (istart + 2) 0) p.r p.a
  ((buf.set istart nb).set (istart + 1) ng).set (istart + 2) nr

/-- The compositing step of `main.rs` lines 89-113: compute the sprite
top-left with wrapping `usize` subtraction, then iterate
`for x in 0.max(cursorx)..(width).min(cursorx + cursor.width())` and the
analogous `y` range, blending each visited pixel.  Additions on the range
ends are `usize` additions, hence taken modulo `2 ^ 64`. -/
def composite (w h : Nat) (blend : Nat → Nat → Nat → Nat)
    (buf : List Nat) (c : CursorImage) : List Nat :=
  let ox := wrapSub c.x c.xhot
  let oy := wrapSub c.y c.yhot
  let xs := List.range' (max 0 ox) (min w ((ox + c.width) % U64) - max 0 ox)
  let ys := List.range' (max 0 oy) (min h ((oy + c.height) % U64) - max 0 oy)
  xs.foldl (fun b x => ys.foldl (fun b2 y => blendAt w blend c ox oy b2 x y) b) buf

/-- Result of `std::process::Command::status()` at `main.rs` line 271:
either the spawn failed, or the child ran and exited with some status
code (`status()` succeeds for any exit code of a spawned child). -/
inductive ChildStatus where
  | spawnFailed
  | exited (code : Int)
  deriving DecidableEq

/-- The one error `run` can produce in its child-process tail. -/
inductive RunError where
  | childSpawnFailed
  deriving DecidableEq

/-- The child-process tail of `run` (`main.rs` lines 268-274): a spawn
failure is wrapped into an error and propagated with `?`; otherwise the
exit status is discarded and `run` returns `Ok(())`. -/
def runChild (s : ChildStatus) : Except RunError Unit :=
  match s with
  | .spawnFailed => .error .childSpawnFailed
  | .exited _ => .ok ()

/-- The exit-code logic of `main` (`main.rs` lines 32-41): print the error
chain and exit 1 when `run` returns an error, otherwise return normally
(process exit code 0). -/
def mainExitCode (s : ChildStatus) : Nat :=
  match runChild s with
  | .ok _ => 0
  | .error _ => 1

/-- Unfolding equation of `chunkLoop` at positive fuel. -/
theorem chunkLoop_succ (stride fuel rows remaining : Nat) (dsty : Int) (first : Nat) :
    chunkLoop stride (fuel + 1) rows remaining dsty first =
      if remaining - (if rows > remaining then remaining else rows) = 0 then
        [⟨if rows > remaining then remaining else rows, dsty, first⟩]
      else
        (⟨if rows > remaining then remaining else rows, dsty, first⟩ : Chunk) ::
          chunkLoop stride fuel rows
            (remaining - (if rows > remaining then remaining else rows))
            (wrapI16 (dsty + wrapI16 ((if rows > remaining then remaining else rows : Nat) : Int)))
            (first + (if rows > remaining then remaining else rows) * stride) := rfl

/-- When fewer rows remain than fit in a chunk, the loop clamps and emits a
final short chunk. -/
theorem chunkLoop_end (stride fuel rows remaining : Nat) (dsty : Int) (first : Nat)
    (hgt : rows > remaining) :
    chunkLoop stride (fuel + 1) rows remaining dsty first
      = [⟨remaining, dsty, first⟩] := by
  rw [chunkLoop_succ]
  simp [if_pos hgt]

/-- When exactly one full chunk of rows remains, the loop emits it and stops. -/
theorem chunkLoop_exact (stride fuel rows remaining : Nat) (dsty : Int) (first : Nat)
    (hgt : ¬rows > remaining) (hz : remaining - rows = 0) :
    chunkLoop stride (fuel + 1) rows remaining dsty first
      = [⟨rows, dsty, first⟩] := by
  rw [chunkLoop_succ]
  simp [if_neg hgt, hz]

/-- When more than one chunk of rows remains, the loop emits a full chunk
and recurses on the rest. -/
theorem chunkLoop_step (stride fuel rows remaining : Nat) (dsty : Int) (first : Nat)
    (hgt : ¬rows > remaining) (hz : ¬remaining - rows = 0) :
    chunkLoop stride (fuel + 1) rows remaining dsty first
      = (⟨rows, dsty, first⟩ : Chunk) ::
          chunkLoop stride fuel rows (remaining - rows)
            (wrapI16 (dsty + wrapI16 rows)) (first + rows * stride) := by
  rw [chunkLoop_succ]
  simp [if_neg hgt, hz]

/-- The row counts of the emitted chunks sum to the remaining height. -/
theorem chunkLoop_sum (stride : Nat) :
    ∀ fuel rows remaining dsty first, 1 ≤ rows → 1 ≤ remaining → remaining ≤ fuel →
      ((chunkLoop stride fuel rows remaining dsty first).map Chunk.rowCount).sum
        = remaining := by
  intro fuel
  induction fuel with
  | zero => intro rows remaining dsty first h1 h2 h3; omega
  | succ fuel ih =>
    intro rows remaining dsty first h1 h2 h3
    by_cases hgt : rows > remaining
    · rw [chunkLoop_end stride fuel rows remaining dsty first hgt]; simp
    · by_cases hz : remaining - rows = 0
      · rw [chunkLoop_exact stride fuel rows remaining dsty first hgt hz]
        simp; omega
      · rw [chunkLoop_step stride fuel rows remaining dsty first hgt hz]
        simp only [List.map_cons, List.sum_cons]
        rw [ih rows (remaining - rows) (wrapI16 (dsty + wrapI16 rows)) (first + rows * stride)
          h1 (by omega) (by omega)]
        omega

/-- With positive fuel the loop emits at least one chunk (the Rust loop
body runs at least once before the break test). -/
theorem chunkLoop_ne_nil (stride fuel rows remaining : Nat) (dsty : Int)
    (first : Nat) (h3 : 1 ≤ fuel) :
    chunkLoop stride fuel rows remaining dsty first ≠ [] := by
  obtain ⟨fuel, rfl⟩ : ∃ f, fuel = f + 1 := ⟨fuel - 1, by omega⟩
  by_cases hgt : rows > remaining
  · rw [chunkLoop_end stride fuel rows remaining dsty first hgt]; simp
  · by_cases hz : remaining - rows = 0
    · rw [chunkLoop_exact stride fuel rows remaining dsty first hgt hz]; simp
    · rw [chunkLoop_step stride fuel rows remaining dsty first hgt hz]; simp

/-- Concatenating the byte ranges of the emitted chunks reproduces the
untransmitted tail of the buffer. -/
theorem chunkLoop_flatten (stride : Nat) (buffer : List Nat) :
    ∀ fuel rows remaining dsty first, 1 ≤ rows → 1 ≤ remaining → remaining ≤ fuel →
      ((chunkLoop stride fuel rows remaining dsty first).map
          (chunkBytes buffer stride)).flatten
        = (buffer.drop first).take (remaining * stride) := by
  intro fuel
  induction fuel with
  | zero => intro rows remaining dsty first h1 h2 h3; omega
  | succ fuel ih =>
    intro rows remaining dsty first h1 h2 h3
    by_cases hgt : rows > remaining
    · rw [chunkLoop_end stride fuel rows remaining dsty first hgt]
      simp [chunkBytes]
    · by_cases hz : remaining - rows = 0
      · have : remaining = rows := by omega
        rw [chunkLoop_exact stride fuel rows remaining dsty first hgt hz, this]
        simp [chunkBytes]
      · rw [chunkLoop_step stride fuel rows remaining dsty first hgt hz]
        simp only [List.map_cons, List.flatten_cons]
        rw [ih rows (remaining - rows) (wrapI16 (dsty + wrapI16 rows)) (first + rows * stride)
          h1 (by omega) (by omega)]
        have hsplit : remaining * stride
            = rows * stride + (remaining - rows) * stride := by
          rw [← Nat.add_mul]
          congr 1
          omega
        rw [hsplit, List.take_add, List.drop_drop]
        simp [chunkBytes]

/-- Every emitted chunk carries at least one row. -/
theorem chunkLoop_pos (stride : Nat) :
    ∀ fuel rows remaining dsty first, 1 ≤ rows → 1 ≤ remaining → remaining ≤ fuel →
      ∀ c ∈ chunkLoop stride fuel rows remaining dsty first, 1 ≤ c.rowCount := by
  intro fuel
  induction fuel with
  | zero => intro rows remaining dsty first h1 h2 h3; omega
  | succ fuel ih =>
    intro rows remaining dsty first h1 h2 h3
    by_cases hgt : rows > remaining
    · rw [chunkLoop_end stride fuel rows remaining dsty first hgt]
      simp; omega
    · by_cases hz : remaining - rows = 0
      · rw [chunkLoop_exact stride fuel rows remaining dsty first hgt hz]
        simp; omega
      · rw [chunkLoop_step stride fuel rows remaining dsty first hgt hz]
        simp only [List.mem_cons]
        rintro c (rfl | hc)
        · exact h1
        · exact ih rows (remaining - rows) (wrapI16 (dsty + wrapI16 rows)) (first + rows * stride)
            h1 (by omega) (by omega) c hc

/-- Every chunk except possibly the last carries exactly `rows` rows. -/
theorem chunkLoop_dropLast (stride : Nat) :
    ∀ fuel rows remaining dsty first, 1 ≤ rows → 1 ≤ remaining → remaining ≤ fuel →
      ∀ c ∈ (chunkLoop stride fuel rows remaining dsty first).dropLast,
        c.rowCount = rows := by
  intro fuel
  induction fuel with
  | zero => intro rows remaining dsty first h1 h2 h3; omega
  | succ fuel ih =>
    intro rows remaining dsty first h1 h2 h3
    by_cases hgt : rows > remaining
    · rw [chunkLoop_end stride fuel rows remaining dsty first hgt]
      simp
    · by_cases hz : remaining - rows = 0
      · rw [chunkLoop_exact stride fuel rows remaining dsty first hgt hz]
        simp
      · rw [chunkLoop_step stride fuel rows remaining dsty first hgt hz]
        rw [List.dropLast_cons_of_ne_nil
          (chunkLoop_ne_nil stride fuel rows (remaining - rows) (wrapI16 (dsty + wrapI16 rows))
            (first + rows * stride) (by omega))]
        simp only [List.mem_cons]
        rintro c (rfl | hc)
        · rfl
        · exact ih rows (remaining - rows) (wrapI16 (dsty + wrapI16 rows)) (first + rows * stride)
            h1 (by omega) (by omega) c hc

/-- The `as i16` cast and the `i16` addition do not wrap inside the
representable range. -/
theorem wrapI16_eq_self (n : Int) (h1 : -32768 ≤ n) (h2 : n ≤ 32767) :
    wrapI16 n = n := by
  unfold wrapI16
  omega

/-- While the accumulated destination row stays inside the `i16` range
(start row nonnegative and start plus remaining rows at most 32767), no
wrap occurs and every chunk lands at or after the current destination
row. -/
theorem chunkLoop_dstY_lb (stride : Nat) :
    ∀ fuel rows remaining : Nat, ∀ dsty : Int, ∀ first : Nat,
      1 ≤ rows → 1 ≤ remaining → remaining ≤ fuel →
      0 ≤ dsty → dsty + remaining ≤ 32767 →
      ∀ c ∈ chunkLoop stride fuel rows remaining dsty first, dsty ≤ c.dstY := by
  intro fuel
  induction fuel with
  | zero => intro rows remaining dsty first h1 h2 h3 h4 h5; omega
  | succ fuel ih =>
    intro rows remaining dsty first h1 h2 h3 h4 h5
    by_cases hgt : rows > remaining
    · rw [chunkLoop_end stride fuel rows remaining dsty first hgt]
      simp
    · by_cases hz : remaining - rows = 0
      · rw [chunkLoop_exact stride fuel rows remaining dsty first hgt hz]
        simp
      · rw [chunkLoop_step stride fuel rows remaining dsty first hgt hz]
        rw [wrapI16_eq_self (rows : Int) (by omega) (by omega),
          wrapI16_eq_self (dsty + (rows : Int)) (by omega) (by omega)]
        simp only [List.mem_cons]
        rintro c (rfl | hc)
        · exact le_refl _
        · exact le_trans (by omega)
            (ih rows (remaining - rows) (dsty + (rows : Int)) (first + rows * stride)
              h1 (by omega) (by omega) (by omega) (by omega) c hc)

/-- While the accumulated destination row stays inside the `i16` range,
destination rows of the emitted chunks are strictly increasing. -/
theorem chunkLoop_dstY_pairwise (stride : Nat) :
    ∀ fuel rows remaining : Nat, ∀ dsty : Int, ∀ first : Nat,
      1 ≤ rows → 1 ≤ remaining → remaining ≤ fuel →
      0 ≤ dsty → dsty + remaining ≤ 32767 →
      ((chunkLoop stride fuel rows remaining dsty first).map Chunk.dstY).Pairwise
        (· < ·) := by
  intro fuel
  induction fuel with
  | zero => intro rows remaining dsty first h1 h2 h3 h4 h5; omega
  | succ fuel ih =>
    intro rows remaining dsty first h1 h2 h3 h4 h5
    by_cases hgt : rows > remaining
    · rw [chunkLoop_end stride fuel rows remaining dsty first hgt]
      simp
    · by_cases hz : remaining - rows = 0
      · rw [chunkLoop_exact stride fuel rows remaining dsty first hgt hz]
        simp
      · rw [chunkLoop_step stride fuel rows remaining dsty first hgt hz]
        rw [wrapI16_eq_self (rows : Int) (by omega) (by omega),
          wrapI16_eq_self (dsty + (rows : Int)) (by omega) (by omega)]
        simp only [List.map_cons, List.pairwise_cons]
        constructor
        · intro b hb
          simp only [List.mem_map] at hb
          obtain ⟨c, hc, rfl⟩ := hb
          have := chunkLoop_dstY_lb stride fuel rows (remaining - rows)
            (dsty + (rows : Int)) (first + rows * stride)
            h1 (by omega) (by omega) (by omega) (by omega) c hc
          omega
        · exact ih rows (remaining - rows) (dsty + (rows : Int)) (first + rows * stride)
            h1 (by omega) (by omega) (by omega) (by omega)

/-- The loop emits exactly the ceiling of `remaining / rows` chunks. -/
theorem chunkLoop_length (stride : Nat) :
    ∀ fuel rows remaining dsty first, 1 ≤ rows → 1 ≤ remaining → remaining ≤ fuel →
      (chunkLoop stride fuel rows remaining dsty first).length
        = (remaining + rows - 1) / rows := by
  intro fuel
  induction fuel with
  | zero => intro rows remaining dsty first h1 h2 h3; omega
  | succ fuel ih =>
    intro rows remaining dsty first h1 h2 h3
    by_cases hgt : rows > remaining
    · rw [chunkLoop_end stride fuel rows remaining dsty first hgt]
      rw [List.length_singleton]
      symm
      exact Nat.div_eq_of_lt_le (by omega) (by omega)
    · by_cases hz : remaining - rows = 0
      · rw [chunkLoop_exact stride fuel rows remaining dsty first hgt hz]
        rw [List.length_singleton]
        symm
        exact Nat.div_eq_of_lt_le (by omega) (by omega)
      · rw [chunkLoop_step stride fuel rows remaining dsty first hgt hz]
        rw [List.length_cons]
        rw [ih rows (remaining - rows) (wrapI16 (dsty + wrapI16 rows)) (first + rows * stride)
          h1 (by omega) (by omega)]
        have h4 : remaining - rows + rows - 1 = remaining - 1 := by omega
        have h5 : remaining + rows - 1 = (remaining - 1) + rows := by omega
        rw [h4, h5, Nat.add_div_right _ (by omega)]

/-- Any fuel at least `remaining` computes the same chunk list: the loop
finishes within `remaining` iterations. -/
theorem chunkLoop_fuel_irrelevant (stride : Nat) :
    ∀ fuel fuel2 rows remaining dsty first, 1 ≤ rows → 1 ≤ remaining →
      remaining ≤ fuel → remaining ≤ fuel2 →
      chunkLoop stride fuel rows remaining dsty first
        = chunkLoop stride fuel2 rows remaining dsty first := by
  intro fuel
  induction fuel with
  | zero => intro fuel2 rows remaining dsty first h1 h2 h3 h4; omega
  | succ fuel ih =>
    intro fuel2 rows remaining dsty first h1 h2 h3 h4
    obtain ⟨fuel2, rfl⟩ : ∃ f, fuel2 = f + 1 := ⟨fuel2 - 1, by omega⟩
    by_cases hgt : rows > remaining
    · rw [chunkLoop_end stride fuel rows remaining dsty first hgt,
        chunkLoop_end stride fuel2 rows remaining dsty first hgt]
    · by_cases hz : remaining - rows = 0
      · rw [chunkLoop_exact stride fuel rows remaining dsty first hgt hz,
          chunkLoop_exact stride fuel2 rows remaining dsty first hgt hz]
      · rw [chunkLoop_step stride fuel rows remaining dsty first hgt hz,
          chunkLoop_step stride fuel2 rows remaining dsty first hgt hz]
        rw [ih fuel2 rows (remaining - rows) (wrapI16 (dsty + wrapI16 rows)) (first + rows * stride)
          h1 (by omega) (by omega) (by omega)]

/-- Claim C1 (corrected), counterexample to the original statement: at
`max_payload = 200000`, stride 4, height 65535 (inside the original
hypotheses: the buffer of 262140 bytes does not fit and
`rowsPerChunk = 49994 ≥ 1`), the program emits a chunk at `dst_y = 0`
followed by one at `dst_y = 49994 as i16 = -15542`: `dst_y` is a wrapping
`i16` accumulator (`main.rs` line 175), so the destination rows are not
strictly increasing. -/
theorem dsty_wrap_counterexample :
    rowsPerChunk 200000 4 = 49994 ∧ 262140 = 4 * 65535 ∧
      (transmit 200000 65535 262140).chunks.map Chunk.dstY = [0, -15542] ∧
      ¬ ((transmit 200000 65535 262140).chunks.map Chunk.dstY).Pairwise
        (· < ·) := by
  decide

/-- Claim C1 (corrected, amended statement): for every frame with
`height ≥ 1` and buffer of length `stride * height`, and every maximum
request length for which `rowsPerChunk ≥ 1`, the transmission step emits
chunks that form a contiguous, gapless, order-preserving partition of
the buffer: concatenating the chunk byte ranges in emission order
reproduces the buffer exactly, the row counts sum to `height`, every
chunk has at least one row, and every chunk except possibly the last
carries exactly `rowsPerChunk` rows; `dst_y` is strictly increasing
across chunks whenever `height ≤ 32767` (it is a wrapping `i16`
accumulator and can wrap for taller frames). -/
theorem transmit_partition (maxReq stride height : Nat) (buffer : List Nat)
    (hh : 1 ≤ height) (hlen : buffer.length = stride * height)
    (hrows : 1 ≤ rowsPerChunk maxReq stride) :
    ∃ cs, transmit maxReq height buffer.length = .sent cs ∧
      (cs.map (chunkBytes buffer stride)).flatten = buffer ∧
      (cs.map Chunk.rowCount).sum = height ∧
      (height ≤ 32767 → (cs.map Chunk.dstY).Pairwise (· < ·)) ∧
      (∀ c ∈ cs, 1 ≤ c.rowCount) ∧
      (∀ c ∈ cs.dropLast, c.rowCount = rowsPerChunk maxReq stride) := by
  have hstride : buffer.length / height = stride := by
    rw [hlen]
    exact Nat.mul_div_cancel stride (by omega)
  unfold transmit
  rw [hstride]
  by_cases hfit : buffer.length < maxReq
  · rw [if_pos hfit]
    refine ⟨_, rfl, ?_, ?_, ?_, ?_, ?_⟩
    · simp [chunkBytes]
      rw [hlen]
      exact Nat.le_of_eq (Nat.mul_comm stride height)
    · simp
    · intro hbound
      simp
    · simp only [List.mem_singleton]
      rintro c rfl
      exact hh
    · simp
  · rw [if_neg hfit, if_neg (by omega : ¬rowsPerChunk maxReq stride = 0)]
    refine ⟨_, rfl, ?_, ?_, ?_, ?_, ?_⟩
    · rw [chunkLoop_flatten stride buffer height (rowsPerChunk maxReq stride)
        height 0 0 hrows hh (Nat.le_refl _)]
      simp
      rw [hlen]
      exact Nat.le_of_eq (Nat.mul_comm stride height)
    · exact chunkLoop_sum stride height (rowsPerChunk maxReq stride) height 0 0
        hrows hh (Nat.le_refl _)
    · intro hbound
      exact chunkLoop_dstY_pairwise stride height (rowsPerChunk maxReq stride)
        height 0 0 hrows hh (Nat.le_refl _) (by omega) (by omega)
    · exact chunkLoop_pos stride height (rowsPerChunk maxReq stride) height 0 0
        hrows hh (Nat.le_refl _)
    · exact chunkLoop_dropLast stride height (rowsPerChunk maxReq stride)
        height 0 0 hrows hh (Nat.le_refl _)

/-- Witness for the amended C1: a 3-row frame with stride 4 under request
limit 30. -/
theorem transmit_partition_witness :
    1 ≤ 3 ∧ (List.replicate 12 (5 : Nat)).length = 4 * 3 ∧
      1 ≤ rowsPerChunk 30 4 ∧
      ∃ cs, transmit 30 3 (List.replicate 12 (5 : Nat)).length = .sent cs ∧
        (cs.map (chunkBytes (List.replicate 12 (5 : Nat)) 4)).flatten
          = List.replicate 12 (5 : Nat) ∧
        (cs.map Chunk.rowCount).sum = 3 ∧
        (3 ≤ 32767 → (cs.map Chunk.dstY).Pairwise (· < ·)) ∧
        (∀ c ∈ cs, 1 ≤ c.rowCount) ∧
        (∀ c ∈ cs.dropLast, c.rowCount = rowsPerChunk 30 4) :=
  ⟨by decide, by decide, by decide,
    transmit_partition 30 4 3 (List.replicate 12 (5 : Nat)) (by decide) (by decide)
      (by decide)⟩

/-- On the non-wrapping side (`maxReq ≥ 22`), the computed rows value is
the plain `(maxReq - 18 - 4) / stride`. -/
theorem rowsPerChunk_of_ge (maxReq stride : Nat) (h : 18 + 4 ≤ maxReq) :
    rowsPerChunk maxReq stride = (maxReq - 18 - 4) / stride := by
  unfold rowsPerChunk usizeSub REQ_SIZE
  rw [if_pos (by omega : (18 : Nat) ≤ maxReq),
    if_pos (by omega : (4 : Nat) ≤ maxReq - 18)]

/-- Claim C2 (corrected), counterexample to the original statement: with
`max_payload = 60`, `stride = 20` and a 3-row buffer of 60 bytes (which
does not fit in one message), the code emits chunks of 1 row each, where
the claimed formula `(max_payload - overhead) / stride = (60 - 18) / 20`
would give 2 rows per chunk: the code subtracts a further 4 bytes. -/
theorem rows_formula_counterexample :
    transmit 60 3 60 = .sent [⟨1, 0, 0⟩, ⟨1, 1, 20⟩, ⟨1, 2, 40⟩] ∧
      rowsPerChunk 60 20 = 1 ∧ (60 - 18) / 20 = 2 := by
  decide

/-- Claim C2 (corrected, amended statement): when the buffer does not fit
in one message, every full chunk carries exactly
`(max_payload_bytes - protocol_overhead_bytes - 4) / stride` rows, with
`protocol_overhead_bytes = req_size = 18` (the source subtracts 4 bytes
beyond `req_size`). -/
theorem transmit_full_chunk_rows (maxReq stride height : Nat)
    (hh : 1 ≤ height) (hfit : maxReq ≤ stride * height)
    (hrows : 1 ≤ (maxReq - 18 - 4) / stride) :
    ∃ cs, transmit maxReq height (stride * height) = .sent cs ∧
      ∀ c ∈ cs.dropLast, c.rowCount = (maxReq - 18 - 4) / stride := by
  have hge : 18 + 4 ≤ maxReq := by
    by_contra hlt
    have h0 : maxReq - 18 - 4 = 0 := by omega
    rw [h0, Nat.zero_div] at hrows
    omega
  have hr : rowsPerChunk maxReq stride = (maxReq - 18 - 4) / stride :=
    rowsPerChunk_of_ge maxReq stride hge
  have hstride : stride * height / height = stride :=
    Nat.mul_div_cancel stride (by omega)
  unfold transmit
  rw [hstride, if_neg (by omega : ¬stride * height < maxReq),
    if_neg (by omega : ¬rowsPerChunk maxReq stride = 0), hr]
  exact ⟨_, rfl, fun c hc => chunkLoop_dropLast stride height
    ((maxReq - 18 - 4) / stride) height 0 0 (by omega) hh (Nat.le_refl _) c hc⟩

/-- Witness for the amended C2: stride 1, 30 rows, request limit 24 gives
full chunks of `(24 - 18 - 4) / 1 = 2` rows. -/
theorem transmit_full_chunk_rows_witness :
    1 ≤ 30 ∧ 24 ≤ 1 * 30 ∧ 1 ≤ (24 - 18 - 4) / 1 ∧
      ∃ cs, transmit 24 30 (1 * 30) = .sent cs ∧
        ∀ c ∈ cs.dropLast, c.rowCount = (24 - 18 - 4) / 1 :=
  ⟨by decide, by decide, by decide,
    transmit_full_chunk_rows 24 1 30 (by decide) (by decide) (by decide)⟩

set_option maxRecDepth 8000 in
/-- Claim C3 (confirmed): a 1920 x 1080 frame with stride 7680 bytes under
maximum request length 65536 and overhead 18 is split into chunks of
8 rows, 135 chunks in total, the last carrying 8 rows (at destination row
1072 and byte offset 1072 * 7680); with height 1079 instead there are
again 135 chunks and the last carries 7 rows. -/
theorem transmit_scenario :
    rowsPerChunk 65536 7680 = 8 ∧
      (transmit 65536 1080 (7680 * 1080)).chunks.length = 135 ∧
      (transmit 65536 1080 (7680 * 1080)).chunks.getLast?
        = some ⟨8, 1072, 1072 * 7680⟩ ∧
      ((transmit 65536 1080 (7680 * 1080)).chunks.dropLast.all
        (fun c => c.rowCount == 8)) = true ∧
      (transmit 65536 1079 (7680 * 1079)).chunks.length = 135 ∧
      (transmit 65536 1079 (7680 * 1079)).chunks.getLast?
        = some ⟨7, 1072, 1072 * 7680⟩ := by
  decide

/-- Claim C4 (corrected), counterexample to the original statement: with
`max_payload = 40` and a 2-row buffer of 40 bytes (stride 20), the rows
per chunk come out as 0 and the code panics instead of returning a
`ChunkTooSmall` error to the caller. -/
theorem chunk_too_small_counterexample :
    transmit 40 2 40 = .panicked 0 := by
  decide

/-- Claim C4 (corrected, amended statement): whenever the buffer does not
fit in one message and `rowsPerChunk < 1`, the transmission step panics
(carrying the rows count 0) rather than returning an error, and no chunk
is emitted. -/
theorem transmit_panics_when_chunk_too_small (maxReq height bufLen : Nat)
    (hfit : maxReq ≤ bufLen) (hr : rowsPerChunk maxReq (bufLen / height) = 0) :
    transmit maxReq height bufLen = .panicked 0 ∧
      (transmit maxReq height bufLen).chunks = [] := by
  unfold transmit
  rw [if_neg (by omega : ¬bufLen < maxReq), hr, if_pos rfl]
  exact ⟨rfl, rfl⟩

/-- Witness for the amended C4: request limit 30 with a single 30-byte row. -/
theorem transmit_panics_witness :
    30 ≤ 30 ∧ rowsPerChunk 30 (30 / 1) = 0 ∧
      (transmit 30 1 30 = .panicked 0 ∧ (transmit 30 1 30).chunks = []) :=
  ⟨by decide, by decide,
    transmit_panics_when_chunk_too_small 30 1 30 (by decide) (by decide)⟩

/-- Claim C9 (confirmed): for every frame height ≥ 1 and rows-per-chunk
value ≥ 1, the splitting loop terminates within `height` iterations (any
fuel of at least `height` yields the same chunk list) and emits exactly
`ceil(height / rows)` chunks, hence at most that many. -/
theorem chunkLoop_terminates (stride rows height fuel : Nat)
    (h1 : 1 ≤ rows) (h2 : 1 ≤ height) (hf : height ≤ fuel) :
    chunkLoop stride fuel rows height 0 0
        = chunkLoop stride height rows height 0 0 ∧
      (chunkLoop stride fuel rows height 0 0).length
        = (height + rows - 1) / rows := by
  constructor
  · exact chunkLoop_fuel_irrelevant stride fuel height rows height 0 0 h1 h2 hf
      (Nat.le_refl _)
  · exact chunkLoop_length stride fuel rows height 0 0 h1 h2 hf

/-- Witness for C9: 5 rows in chunks of 2 take 3 chunks, with spare fuel. -/
theorem chunkLoop_terminates_witness :
    chunkLoop 5 9 2 5 0 0 = chunkLoop 5 5 2 5 0 0 ∧
      (chunkLoop 5 9 2 5 0 0).length = (5 + 2 - 1) / 2 :=
  chunkLoop_terminates 5 2 5 9 (by decide) (by decide) (by decide)

/-- The fold of a function that ignores the list element is the identity. -/
theorem foldl_self {α β : Type} (l : List α) (b : β) :
    l.foldl (fun acc _ => acc) b = b := by
  induction l generalizing b with
  | nil => rfl
  | cons a l ih => rw [List.foldl_cons]; exact ih b

/-- A wrapping subtraction that underflows lands beyond any 16-bit frame
dimension. -/
theorem wrapSub_large (a : Int) (b : Nat) (h1 : -98303 ≤ a - b) (h2 : a - b < 0) :
    (65535 : Nat) < wrapSub a b := by
  unfold wrapSub
  have hU : ((U64 : Nat) : Int) = 18446744073709551616 := by norm_num [U64]
  rw [hU]
  omega

/-- A wrapping subtraction that does not underflow is the exact difference. -/
theorem wrapSub_small (a : Int) (b : Nat) (h1 : 0 ≤ a - b) (h2 : a - b < 98304) :
    (wrapSub a b : Int) = a - b := by
  unfold wrapSub
  have hU : ((U64 : Nat) : Int) = 18446744073709551616 := by norm_num [U64]
  rw [hU]
  omega

/-- Claim C10 (confirmed): under the wrapping `usize` arithmetic of the
source, whenever the reported cursor x coordinate is less than the x
hotspot or the y coordinate is less than the y hotspot (including
negative reported coordinates), the computed top-left wraps far beyond
the frame bound, the loop ranges are empty, and `composite` returns the
frame unchanged: the partially visible sprite is dropped entirely.  The
bounds reflect the machine types (`i16` position, `u16` hotspot and frame
dimensions). -/
theorem composite_noop_on_underflow (w h : Nat) (blend : Nat → Nat → Nat → Nat)
    (buf : List Nat) (c : CursorImage)
    (hw : w ≤ 65535) (hh : h ≤ 65535)
    (hx1 : -32768 ≤ c.x) (hx2 : c.x ≤ 32767)
    (hy1 : -32768 ≤ c.y) (hy2 : c.y ≤ 32767)
    (hxh : c.xhot ≤ 65535) (hyh : c.yhot ≤ 65535)
    (hunder : c.x < (c.xhot : Int) ∨ c.y < (c.yhot : Int)) :
    composite w h blend buf c = buf := by
  simp only [composite]
  rcases hunder with hu | hu
  · have hox : (65535 : Nat) < wrapSub c.x c.xhot :=
      wrapSub_large c.x c.xhot (by omega) (by omega)
    have hempty : min w ((wrapSub c.x c.xhot + c.width) % U64)
        - max 0 (wrapSub c.x c.xhot) = 0 := by
      rw [Nat.max_eq_right (Nat.zero_le _)]
      exact Nat.sub_eq_zero_of_le
        (le_trans (Nat.min_le_left _ _) (by omega))
    rw [hempty, List.range'_zero, List.foldl_nil]
  · have hoy : (65535 : Nat) < wrapSub c.y c.yhot :=
      wrapSub_large c.y c.yhot (by omega) (by omega)
    have hempty : min h ((wrapSub c.y c.yhot + c.height) % U64)
        - max 0 (wrapSub c.y c.yhot) = 0 := by
      rw [Nat.max_eq_right (Nat.zero_le _)]
      exact Nat.sub_eq_zero_of_le
        (le_trans (Nat.min_le_left _ _) (by omega))
    rw [hempty, List.range'_zero]
    simp only [List.foldl_nil]
    exact foldl_self _ buf

/-- Witness for C10: a sprite reported at x = 0 with x hotspot 2 on a 4 x 4
frame leaves the frame untouched. -/
theorem composite_noop_witness :
    composite 4 4 blendByte (List.replicate 64 5)
        ⟨0, 3, 2, 0, 2, 2, List.replicate 4 ⟨1, 2, 3, 4⟩⟩
      = List.replicate 64 5 :=
  composite_noop_on_underflow 4 4 blendByte (List.replicate 64 5)
    ⟨0, 3, 2, 0, 2, 2, List.replicate 4 ⟨1, 2, 3, 4⟩⟩
    (by decide) (by decide) (by decide) (by decide) (by decide) (by decide)
    (by decide) (by decide) (Or.inl (by decide))

/-- Claim C6 (code bug): evaluation of the code at the failing input.  A
4 x 1 opaque sprite reported at x = 0 with x hotspot 2 should, per the
spec, have its texels 2 and 3 blended at destination columns 0 and 1; the
code's wrapped subtraction makes both loop ranges empty and the frame
comes back byte-for-byte unchanged — the `0.max(cursorx)` clamp in the
source can never act after the `usize` subtraction has already wrapped. -/
theorem composite_underflow_drops_sprite :
    composite 4 1 blendByte (List.replicate 16 10)
        ⟨0, 0, 2, 0, 4, 1, List.replicate 4 ⟨9, 9, 9, 255⟩⟩
      = List.replicate 16 10 := by
  decide

theorem getD_set_ne_idx (l : List Nat) (i j x d : Nat) (h : i ≠ j) :
    (l.set i x).getD j d = l.getD j d := by
  rw [List.getD_eq_getElem?_getD, List.getD_eq_getElem?_getD,
    List.getElem?_set_ne h]

theorem getD_set_self_idx (l : List Nat) (i x d : Nat) (h : i < l.length) :
    (l.set i x).getD i d = x := by
  rw [List.getD_eq_getElem?_getD, List.getElem?_set_self h]
  rfl

/-- Blending one pixel does not change the buffer length. -/
theorem blendAt_length (w : Nat) (blend : Nat → Nat → Nat → Nat) (c : CursorImage)
    (ox oy : Nat) (buf : List Nat) (x y : Nat) :
    (blendAt w blend c ox oy buf x y).length = buf.length := by
  simp [blendAt]

/-- Blending pixel `(x, y)` leaves every byte outside its three channel
indices unchanged. -/
theorem blendAt_getD_untouched (w : Nat) (blend : Nat → Nat → Nat → Nat)
    (c : CursorImage) (ox oy : Nat) (buf : List Nat) (x y j d : Nat)
    (h0 : j ≠ (y * w + x) * 4) (h1 : j ≠ (y * w + x) * 4 + 1)
    (h2 : j ≠ (y * w + x) * 4 + 2) :
    (blendAt w blend c ox oy buf x y).getD j d = buf.getD j d := by
  simp only [blendAt]
  rw [getD_set_ne_idx _ _ _ _ _ (Ne.symm h2), getD_set_ne_idx _ _ _ _ _ (Ne.symm h1),
    getD_set_ne_idx _ _ _ _ _ (Ne.symm h0)]

/-- Blending pixel `(x, y)` writes the blended B channel at its first
byte. -/
theorem blendAt_getD_b (w : Nat) (blend : Nat → Nat → Nat → Nat) (c : CursorImage)
    (ox oy : Nat) (buf : List Nat) (x y : Nat)
    (h : (y * w + x) * 4 + 2 < buf.length) :
    (blendAt w blend c ox oy buf x y).getD ((y * w + x) * 4) 0
      = blend (buf.getD ((y * w + x) * 4) 0)
          ((c.pixels.getD ((y - oy) * c.width + (x - ox)) ⟨0, 0, 0, 0⟩).b)
          ((c.pixels.getD ((y - oy) * c.width + (x - ox)) ⟨0, 0, 0, 0⟩).a) := by
  simp only [blendAt]
  rw [getD_set_ne_idx _ _ _ _ _ (by omega), getD_set_ne_idx _ _ _ _ _ (by omega),
    getD_set_self_idx _ _ _ _ (by omega)]

theorem innerFold_length (w : Nat) (blend : Nat → Nat → Nat → Nat)
    (c : CursorImage) (ox oy x : Nat) (ys : List Nat) (buf : List Nat) :
    (ys.foldl (fun b y => blendAt w blend c ox oy b x y) buf).length
      = buf.length := by
  induction ys generalizing buf with
  | nil => rfl
  | cons y ys ih => rw [List.foldl_cons, ih, blendAt_length]

theorem innerFold_untouched (w : Nat) (blend : Nat → Nat → Nat → Nat)
    (c : CursorImage) (ox oy x j d : Nat) (ys : List Nat) (buf : List Nat)
    (h : ∀ y ∈ ys, j ≠ (y * w + x) * 4 ∧ j ≠ (y * w + x) * 4 + 1 ∧
      j ≠ (y * w + x) * 4 + 2) :
    (ys.foldl (fun b y => blendAt w blend c ox oy b x y) buf).getD j d
      = buf.getD j d := by
  induction ys generalizing buf with
  | nil => rfl
  | cons y ys ih =>
    rw [List.foldl_cons, ih _ (fun y2 hy2 => h y2 (List.mem_cons_of_mem y hy2))]
    have h3 := h y (List.mem_cons_self y ys)
    exact blendAt_getD_untouched w blend c ox oy buf x y j d h3.1 h3.2.1 h3.2.2

/-- Distinct rows give distinct pixel indices (frame width positive). -/
theorem row_index_ne (w x : Nat) (hw : 1 ≤ w) {y y2 : Nat} (h : y ≠ y2) :
    y * w + x ≠ y2 * w + x := by
  intro he
  exact h (Nat.eq_of_mul_eq_mul_right hw (by omega))

/-- Distinct in-frame cells give distinct pixel indices. -/
theorem cell_index_ne (w : Nat) {x x2 y y2 : Nat} (hx : x < w) (hx2 : x2 < w)
    (h : ¬(x = x2 ∧ y = y2)) : y * w + x ≠ y2 * w + x2 := by
  intro he
  have e1 : (x + y * w) % w = x := by
    rw [Nat.mul_comm, Nat.add_mul_mod_self_left, Nat.mod_eq_of_lt hx]
  have e2 : (x2 + y2 * w) % w = x2 := by
    rw [Nat.mul_comm, Nat.add_mul_mod_self_left, Nat.mod_eq_of_lt hx2]
  have hxx : x = x2 := by
    rw [← e1, ← e2, Nat.add_comm x (y * w), Nat.add_comm x2 (y2 * w), he]
  have hyy : y = y2 := by
    refine Nat.eq_of_mul_eq_mul_right (by omega : 0 < w) ?_
    omega
  exact h ⟨hxx, hyy⟩

/-- Distinct pixels have disjoint channel byte triples. -/
theorem idx_trio_ne {A B : Nat} (h : A ≠ B) :
    A * 4 ≠ B * 4 ∧ A * 4 ≠ B * 4 + 1 ∧ A * 4 ≠ B * 4 + 2 := by omega

/-- Value of the inner (per-column) loop at the one visited row `dy`. -/
theorem innerFold_hit (w : Nat) (blend : Nat → Nat → Nat → Nat) (c : CursorImage)
    (ox oy x : Nat) (ys : List Nat) (dy : Nat) (buf : List Nat)
    (hw : 1 ≤ w) (hmem : dy ∈ ys) (hnd : ys.Nodup)
    (hlen : (dy * w + x) * 4 + 2 < buf.length) :
    (ys.foldl (fun b y => blendAt w blend c ox oy b x y) buf).getD
        ((dy * w + x) * 4) 0
      = blend (buf.getD ((dy * w + x) * 4) 0)
          ((c.pixels.getD ((dy - oy) * c.width + (x - ox)) ⟨0, 0, 0, 0⟩).b)
          ((c.pixels.getD ((dy - oy) * c.width + (x - ox)) ⟨0, 0, 0, 0⟩).a) := by
  induction ys generalizing buf with
  | nil => exact absurd hmem (List.not_mem_nil dy)
  | cons y ys ih =>
    rw [List.foldl_cons]
    rcases List.mem_cons.mp hmem with rfl | hmem2
    · have hnotin : dy ∉ ys := (List.nodup_cons.mp hnd).1
      rw [innerFold_untouched w blend c ox oy x _ 0 ys _
        (fun y2 hy2 => idx_trio_ne (row_index_ne w x hw
          (by rintro rfl; exact hnotin hy2)))]
      exact blendAt_getD_b w blend c ox oy buf x dy hlen
    · have hyne : dy ≠ y := by
        rintro rfl
        exact (List.nodup_cons.mp hnd).1 hmem2
      have htrio := idx_trio_ne (row_index_ne w x hw hyne)
      rw [ih (blendAt w blend c ox oy buf x y) hmem2 (List.nodup_cons.mp hnd).2
        (by rw [blendAt_length]; exact hlen)]
      rw [blendAt_getD_untouched w blend c ox oy buf x y _ 0
        htrio.1 htrio.2.1 htrio.2.2]

theorem outerFold_untouched (w : Nat) (blend : Nat → Nat → Nat → Nat)
    (c : CursorImage) (ox oy j d : Nat) (xs ys : List Nat) (buf : List Nat)
    (h : ∀ x ∈ xs, ∀ y ∈ ys, j ≠ (y * w + x) * 4 ∧ j ≠ (y * w + x) * 4 + 1 ∧
      j ≠ (y * w + x) * 4 + 2) :
    (xs.foldl (fun b x => ys.foldl (fun b2 y => blendAt w blend c ox oy b2 x y) b)
        buf).getD j d = buf.getD j d := by
  induction xs generalizing buf with
  | nil => rfl
  | cons x xs ih =>
    rw [List.foldl_cons, ih _ (fun x2 hx2 => h x2 (List.mem_cons_of_mem x hx2))]
    exact innerFold_untouched w blend c ox oy x j d ys buf
      (h x (List.mem_cons_self x xs))

/-- Value of the nested compositing loops at the one visited cell
`(dx, dy)`: the B channel byte becomes the blend of the original frame
byte with the sprite texel at `(dx - ox, dy - oy)`. -/
theorem outerFold_hit (w : Nat) (blend : Nat → Nat → Nat → Nat) (c : CursorImage)
    (ox oy : Nat) (xs ys : List Nat) (dx dy : Nat) (buf : List Nat)
    (hw : 1 ≤ w) (hxmem : dx ∈ xs) (hxnd : xs.Nodup)
    (hymem : dy ∈ ys) (hynd : ys.Nodup)
    (hxw : ∀ x ∈ xs, x < w)
    (hlen : (dy * w + dx) * 4 + 2 < buf.length) :
    (xs.foldl (fun b x => ys.foldl (fun b2 y => blendAt w blend c ox oy b2 x y) b)
        buf).getD ((dy * w + dx) * 4) 0
      = blend (buf.getD ((dy * w + dx) * 4) 0)
          ((c.pixels.getD ((dy - oy) * c.width + (dx - ox)) ⟨0, 0, 0, 0⟩).b)
          ((c.pixels.getD ((dy - oy) * c.width + (dx - ox)) ⟨0, 0, 0, 0⟩).a) := by
  induction xs generalizing buf with
  | nil => exact absurd hxmem (List.not_mem_nil dx)
  | cons x xs ih =>
    rw [List.foldl_cons]
    rcases List.mem_cons.mp hxmem with rfl | hxmem2
    · have hnotin : dx ∉ xs := (List.nodup_cons.mp hxnd).1
      rw [outerFold_untouched w blend c ox oy _ 0 xs ys _
        (fun x2 hx2 y2 hy2 => idx_trio_ne (cell_index_ne w
          (hxw dx (List.mem_cons_self dx xs)) (hxw x2 (List.mem_cons_of_mem dx hx2))
          (by rintro ⟨rfl, rfl⟩; exact hnotin hx2)))]
      exact innerFold_hit w blend c ox oy dx ys dy buf hw hymem hynd hlen
    · have hxne : dx ≠ x := by
        rintro rfl
        exact (List.nodup_cons.mp hxnd).1 hxmem2
      rw [ih (ys.foldl (fun b2 y => blendAt w blend c ox oy b2 x y) buf) hxmem2
        (List.nodup_cons.mp hxnd).2 (fun x2 hx2 => hxw x2 (List.mem_cons_of_mem x hx2))
        (by rw [innerFold_length]; exact hlen)]
      rw [innerFold_untouched w blend c ox oy x _ 0 ys buf
        (fun y2 hy2 => idx_trio_ne (cell_index_ne w
          (hxw dx (by exact List.mem_cons_of_mem x hxmem2))
          (hxw x (List.mem_cons_self x xs))
          (by rintro ⟨rfl, _⟩; exact hxne rfl)))]

/-- Claim C7 (corrected), counterexample to the original statement: for a
1 x 1 opaque sprite reported at x = 5 with x hotspot 2 on an 8 x 1 frame,
the byte of destination column 5 (where the claim places the sprite's
top-left) is left unchanged at 10, while the byte of column 3 = 5 - 2
receives the sprite value 9: the consumer does subtract the hotspot. -/
theorem cursor_anchor_counterexample :
    (composite 8 1 blendByte (List.replicate 32 10)
        ⟨5, 0, 2, 0, 1, 1, [⟨0, 0, 9, 255⟩]⟩).getD ((0 * 8 + 5) * 4) 0 = 10 ∧
      (composite 8 1 blendByte (List.replicate 32 10)
        ⟨5, 0, 2, 0, 1, 1, [⟨0, 0, 9, 255⟩]⟩).getD ((0 * 8 + 3) * 4) 0 = 9 := by
  decide

theorem max_zero_left (n : Nat) : max 0 n = n :=
  Nat.max_eq_right (Nat.zero_le n)

/-- Channel byte indices of in-frame pixels lie inside a
4-bytes-per-pixel buffer. -/
theorem pix_index_lt (w h dx dy : Nat) (hdx : dx < w) (hdy : dy < h) :
    (dy * w + dx) * 4 + 2 < 4 * (w * h) := by
  have h1 : dy * w + dx < h * w := by
    calc dy * w + dx < dy * w + w := by omega
    _ = (dy + 1) * w := by ring
    _ ≤ h * w := Nat.mul_le_mul_right w hdy
  calc (dy * w + dx) * 4 + 2 < (h * w) * 4 := by omega
  _ = 4 * (w * h) := by ring

/-- Claim C7 (corrected, amended statement): the position reported by the
cursor-shape query is the hotspot position, and the consumer subtracts
the hotspot before compositing: the sprite's top-left on screen is
`(pos_x - hotspot_x, pos_y - hotspot_y)`, not `(pos_x, pos_y)` as
reported.  Concretely, for every destination cell `(dx, dy)` inside the
clipped rectangle anchored at the hotspot-subtracted top-left, the B
channel byte is blended with the sprite texel indexed relative to that
top-left. -/
theorem composite_anchor_subtracts_hotspot (w h : Nat)
    (blend : Nat → Nat → Nat → Nat) (buf : List Nat) (c : CursorImage) (dx dy : Nat)
    (hw : 1 ≤ w)
    (hx1 : (c.xhot : Int) ≤ c.x) (hx2 : c.x ≤ 32767)
    (hy1 : (c.yhot : Int) ≤ c.y) (hy2 : c.y ≤ 32767)
    (hcw : c.width ≤ 65535) (hch : c.height ≤ 65535)
    (hdx1 : (c.x - (c.xhot : Int)).toNat ≤ dx)
    (hdx2 : dx < min w ((c.x - (c.xhot : Int)).toNat + c.width))
    (hdy1 : (c.y - (c.yhot : Int)).toNat ≤ dy)
    (hdy2 : dy < min h ((c.y - (c.yhot : Int)).toNat + c.height))
    (hlen : buf.length = 4 * (w * h)) :
    (composite w h blend buf c).getD ((dy * w + dx) * 4) 0
      = blend (buf.getD ((dy * w + dx) * 4) 0)
          ((c.pixels.getD ((dy - (c.y - (c.yhot : Int)).toNat) * c.width
              + (dx - (c.x - (c.xhot : Int)).toNat)) ⟨0, 0, 0, 0⟩).b)
          ((c.pixels.getD ((dy - (c.y - (c.yhot : Int)).toNat) * c.width
              + (dx - (c.x - (c.xhot : Int)).toNat)) ⟨0, 0, 0, 0⟩).a) := by
  have hU : U64 = 18446744073709551616 := by norm_num [U64]
  have hoxI : (wrapSub c.x c.xhot : Int) = c.x - c.xhot :=
    wrapSub_small c.x c.xhot (by omega) (by omega)
  have hoyI : (wrapSub c.y c.yhot : Int) = c.y - c.yhot :=
    wrapSub_small c.y c.yhot (by omega) (by omega)
  have hox : wrapSub c.x c.xhot = (c.x - (c.xhot : Int)).toNat := by omega
  have hoy : wrapSub c.y c.yhot = (c.y - (c.yhot : Int)).toNat := by omega
  have hxb : (c.x - (c.xhot : Int)).toNat ≤ 32767 := by omega
  have hyb : (c.y - (c.yhot : Int)).toNat ≤ 32767 := by omega
  have hmodx : ((c.x - (c.xhot : Int)).toNat + c.width) % U64
      = (c.x - (c.xhot : Int)).toNat + c.width := by
    rw [hU]; omega
  have hmody : ((c.y - (c.yhot : Int)).toNat + c.height) % U64
      = (c.y - (c.yhot : Int)).toNat + c.height := by
    rw [hU]; omega
  simp only [composite]
  rw [hox, hoy, max_zero_left, max_zero_left, hmodx, hmody]
  have hMw : min w ((c.x - (c.xhot : Int)).toNat + c.width) ≤ w :=
    Nat.min_le_left _ _
  have hMh : min h ((c.y - (c.yhot : Int)).toNat + c.height) ≤ h :=
    Nat.min_le_left _ _
  refine outerFold_hit w blend c _ _ _ _ dx dy buf hw ?_ ?_ ?_ ?_ ?_ ?_
  · exact List.mem_range'_1.mpr ⟨hdx1, by omega⟩
  · exact List.nodup_range' _ _
  · exact List.mem_range'_1.mpr ⟨hdy1, by omega⟩
  · exact List.nodup_range' _ _
  · intro x hx
    have := List.mem_range'_1.mp hx
    omega
  · rw [hlen]
    exact pix_index_lt w h dx dy (by omega) (by omega)

/-- Witness for the amended C7: a 2 x 2 sprite reported at (3, 1) with
hotspot (1, 1) on a 4 x 2 frame; the cell (3, 1) receives the blend with
the sprite texel (1, 1), whose B channel is 4 and alpha 255. -/
theorem composite_anchor_witness :
    (composite 4 2 blendByte (List.replicate 32 10)
        ⟨3, 1, 1, 1, 2, 2, [⟨1, 1, 1, 255⟩, ⟨2, 2, 2, 255⟩, ⟨3, 3, 3, 255⟩,
          ⟨4, 4, 4, 255⟩]⟩).getD ((1 * 4 + 3) * 4) 0
      = blendByte ((List.replicate 32 10).getD ((1 * 4 + 3) * 4) 0) 4 255 :=
  composite_anchor_subtracts_hotspot 4 2 blendByte (List.replicate 32 10)
    ⟨3, 1, 1, 1, 2, 2, [⟨1, 1, 1, 255⟩, ⟨2, 2, 2, 255⟩, ⟨3, 3, 3, 255⟩, ⟨4, 4, 4, 255⟩]⟩
    3 1 (by decide) (by decide) (by decide) (by decide) (by decide) (by decide)
    (by decide) (by decide) (by decide) (by decide) (by decide) (by decide)

/-- Claim C8 (corrected), counterexample to the original statement: a
child that spawns successfully and exits with status 3 still makes the
tool exit with code 0, not 1: `status()` only fails on spawn failure and
the exit status is discarded. -/
theorem child_exit_counterexample :
    mainExitCode (ChildStatus.exited 3) = 0 ∧
      mainExitCode (ChildStatus.exited 3) ≠ 1 := by
  decide

/-- Claim C8 (corrected, amended statement): a successfully spawned
child's exit status is ignored — the tool exits 0 for every child exit
code — and only a spawn failure is reported with exit code 1. -/
theorem child_exit_ignored (code : Int) :
    mainExitCode (ChildStatus.exited code) = 0 ∧
      mainExitCode ChildStatus.spawnFailed = 1 :=
  ⟨rfl, rfl⟩

/-- Witness for the amended C8 at exit code 7. -/
theorem child_exit_ignored_witness :
    mainExitCode (ChildStatus.exited 7) = 0 ∧
      mainExitCode ChildStatus.spawnFailed = 1 :=
  child_exit_ignored 7

end Nora
